import Mathlib

/-!
Shallow embedding of the iron-hmac middleware (src/src/lib.rs together with
the helper modules src/src/util.rs and src/src/error.rs).

Bytes are `Nat` (values below 256 where the Rust type is `u8`); 32-bit words
are `Nat` reduced mod `2^32` at every operation that can overflow.  The
SHA-256 / HMAC-SHA256 primitive is embedded concretely with the streaming
interface the middleware consumes (`HMAC::new`, repeated `write_all`,
`finish`), so that the nested request digest computed by feeding three
sub-digests incrementally can be compared with a one-shot keyed digest of
their concatenation.
-/

set_option maxRecDepth 100000

/-- Decidable equality for `Except`, needed to evaluate middleware outcomes. -/
instance exceptDecidableEq {ε α : Type} [DecidableEq ε] [DecidableEq α] :
    DecidableEq (Except ε α) := fun a b =>
  match a, b with
  | .error e, .error f =>
      if h : e = f then .isTrue (congrArg Except.error h)
      else .isFalse (fun hh => h (Except.error.inj hh))
  | .ok x, .ok y =>
      if h : x = y then .isTrue (congrArg Except.ok h)
      else .isFalse (fun hh => h (Except.ok.inj hh))
  | .error _, .ok _ => .isFalse (fun hh => Except.noConfusion hh)
  | .ok _, .error _ => .isFalse (fun hh => Except.noConfusion hh)

namespace IronHmac

/-! ## SHA-256 primitive (streaming) -/

/-- One 32-bit modular addition. -/
def add32 (a b : Nat) : Nat := (a + b) % 4294967296

/-- Right rotation of a 32-bit word. -/
def rotr32 (n x : Nat) : Nat := Nat.lor (x >>> n) ((x <<< (32 - n)) % 4294967296)

/-- Bitwise complement on 32-bit words. -/
def not32 (x : Nat) : Nat := Nat.xor x 4294967295

/-- SHA-256 choice function. -/
def shaCh (x y z : Nat) : Nat := Nat.xor (Nat.land x y) (Nat.land (not32 x) z)

/-- SHA-256 majority function. -/
def shaMaj (x y z : Nat) : Nat :=
  Nat.xor (Nat.xor (Nat.land x y) (Nat.land x z)) (Nat.land y z)

/-- SHA-256 big sigma 0. -/
def bigSigma0 (x : Nat) : Nat := Nat.xor (Nat.xor (rotr32 2 x) (rotr32 13 x)) (rotr32 22 x)

/-- SHA-256 big sigma 1. -/
def bigSigma1 (x : Nat) : Nat := Nat.xor (Nat.xor (rotr32 6 x) (rotr32 11 x)) (rotr32 25 x)

/-- SHA-256 small sigma 0. -/
def smallSigma0 (x : Nat) : Nat := Nat.xor (Nat.xor (rotr32 7 x) (rotr32 18 x)) (x >>> 3)

/-- SHA-256 small sigma 1. -/
def smallSigma1 (x : Nat) : Nat := Nat.xor (Nat.xor (rotr32 17 x) (rotr32 19 x)) (x >>> 10)

/-- The 64 SHA-256 round constants, written in decimal. -/
def K256 : List Nat :=
  [1116352408, 1899447441, 3049323471, 3921009573, 961987163, 1508970993, 2453635748, 2870763221,
   3624381080, 310598401, 607225278, 1426881987, 1925078388, 2162078206, 2614888103, 3248222580,
   3835390401, 4022224774, 264347078, 604807628, 770255983, 1249150122, 1555081692, 1996064986,
   2554220882, 2821834349, 2952996808, 3210313671, 3336571891, 3584528711, 113926993, 338241895,
   666307205, 773529912, 1294757372, 1396182291, 1695183700, 1986661051, 2177026350, 2456956037,
   2730485921, 2820302411, 3259730800, 3345764771, 3516065817, 3600352804, 4094571909, 275423344,
   430227734, 506948616, 659060556, 883997877, 958139571, 1322822218, 1537002063, 1747873779,
   1955562222, 2024104815, 2227730452, 2361852424, 2428436474, 2756734187, 3204031479, 3329325298]

/-- The eight SHA-256 working registers. -/
structure Regs where
  ra : Nat
  rb : Nat
  rc : Nat
  rd : Nat
  re : Nat
  rf : Nat
  rg : Nat
  rh : Nat
deriving DecidableEq, Repr

/-- The SHA-256 initial hash value, written in decimal. -/
def regsInit : Regs :=
  ⟨1779033703, 3144134277, 1013904242, 2773480762, 1359893119, 2600822924, 528734635, 1541459225⟩

/-- Big-endian packing of bytes into 32-bit words (four bytes per word). -/
def toWords : List Nat → List Nat
  | b0 :: b1 :: b2 :: b3 :: rest =>
      (((b0 * 256 + b1) * 256 + b2) * 256 + b3) :: toWords rest
  | _ => []

/-- Extend the message schedule; the accumulator holds the words produced so
far in reverse order (most recent first). -/
def scheduleRev : Nat → List Nat → List Nat
  | 0, acc => acc
  | n + 1, acc =>
      let x := add32 (add32 (smallSigma1 (acc.getD 1 0)) (acc.getD 6 0))
                     (add32 (smallSigma0 (acc.getD 14 0)) (acc.getD 15 0))
      scheduleRev n (x :: acc)

/-- The 64-entry message schedule of one 64-byte block. -/
def messageSchedule (block : List Nat) : List Nat :=
  (scheduleRev 48 (toWords block).reverse).reverse

/-- One SHA-256 round, taking the round constant paired with the schedule word. -/
def shaRound (r : Regs) (kw : Nat × Nat) : Regs :=
  let t1 := add32 r.rh (add32 (bigSigma1 r.re) (add32 (shaCh r.re r.rf r.rg) (add32 kw.1 kw.2)))
  let t2 := add32 (bigSigma0 r.ra) (shaMaj r.ra r.rb r.rc)
  ⟨add32 t1 t2, r.ra, r.rb, r.rc, add32 r.rd t1, r.re, r.rf, r.rg⟩

/-- The SHA-256 compression function on one 64-byte block. -/
def compress (r : Regs) (block : List Nat) : Regs :=
  let z := (K256.zip (messageSchedule block)).foldl shaRound r
  ⟨add32 r.ra z.ra, add32 r.rb z.rb, add32 r.rc z.rc, add32 r.rd z.rd,
   add32 r.re z.re, add32 r.rf z.rf, add32 r.rg z.rg, add32 r.rh z.rh⟩

/-- Streaming SHA-256 state: registers, the not-yet-compressed tail of the
input (always shorter than one block), and the total byte count seen. -/
structure Sha256State where
  regs : Regs
  pending : List Nat
  size : Nat
deriving DecidableEq, Repr

/-- Fresh streaming state. -/
def shaStart : Sha256State := ⟨regsInit, [], 0⟩

/-- Feed one byte into the stream, compressing when a full block is available. -/
def absorbByte (s : Sha256State) (b : Nat) : Sha256State :=
  let p := s.pending ++ [b]
  if p.length = 64 then ⟨compress s.regs p, [], s.size + 1⟩
  else ⟨s.regs, p, s.size + 1⟩

/-- Feed a byte sequence into the stream. -/
def shaUpdate (s : Sha256State) (data : List Nat) : Sha256State :=
  data.foldl absorbByte s

/-- Big-endian 8-byte encoding of a length field. -/
def u64be (n : Nat) : List Nat :=
  [n >>> 56 % 256, n >>> 48 % 256, n >>> 40 % 256, n >>> 32 % 256,
   n >>> 24 % 256, n >>> 16 % 256, n >>> 8 % 256, n % 256]

/-- Big-endian 4-byte encoding of a 32-bit word. -/
def u32be (x : Nat) : List Nat :=
  [x >>> 24 % 256, x >>> 16 % 256, x >>> 8 % 256, x % 256]

/-- SHA-256 padding appended at finalization: the byte 0x80, zeros up to 56
mod 64, and the bit length of the whole message, big-endian. -/
def padTail (pendingLen size : Nat) : List Nat :=
  128 :: List.replicate ((119 - pendingLen) % 64) 0 ++ u64be (8 * size)

/-- Compress a byte sequence block by block, structurally on a fuel bound so
it reduces in the kernel; the fuel is instantiated with the list length. -/
def processBlocksFuel : Nat → Regs → List Nat → Regs
  | 0, r, _ => r
  | _ + 1, r, [] => r
  | n + 1, r, b :: bs =>
      processBlocksFuel n (compress r ((b :: bs).take 64)) ((b :: bs).drop 64)

/-- Compress a byte sequence block by block (used on the padded tail, whose
length is a multiple of 64). -/
def processBlocks (r : Regs) (l : List Nat) : Regs :=
  processBlocksFuel l.length r l

/-- Serialize the final registers to the 32-byte digest. -/
def regsToBytes (r : Regs) : List Nat :=
  u32be r.ra ++ u32be r.rb ++ u32be r.rc ++ u32be r.rd ++
  u32be r.re ++ u32be r.rf ++ u32be r.rg ++ u32be r.rh

/-- Finalize a stream: pad, compress the remaining block or blocks, serialize. -/
def shaFinish (s : Sha256State) : List Nat :=
  regsToBytes (processBlocks s.regs (s.pending ++ padTail s.pending.length s.size))

/-- One-shot SHA-256 of a byte sequence. -/
def sha256 (msg : List Nat) : List Nat := shaFinish (shaUpdate shaStart msg)

/-! ## HMAC-SHA256 (embedding the openssl HMAC streaming interface) -/

/-- Key preprocessing: hash keys longer than one block, then zero-pad to 64. -/
def blockPadKey (key : List Nat) : List Nat :=
  let k := if 64 < key.length then sha256 key else key
  k ++ List.replicate (64 - k.length) 0

/-- Streaming HMAC state, as produced by `HMAC::new(Type::SHA256, key)`. -/
structure HmacState where
  key : List Nat
  inner : Sha256State
deriving DecidableEq, Repr

/-- `HMAC::new`: start the inner hash over the ipad-masked key. -/
def hmacNew (key : List Nat) : HmacState :=
  ⟨key, shaUpdate shaStart ((blockPadKey key).map (Nat.xor 54))⟩

/-- `write_all`: feed message bytes to the inner hash. -/
def hmacInput (s : HmacState) (data : List Nat) : HmacState :=
  ⟨s.key, shaUpdate s.inner data⟩

/-- `finish`: outer hash of the opad-masked key followed by the inner digest. -/
def hmacFinish (s : HmacState) : List Nat :=
  sha256 ((blockPadKey s.key).map (Nat.xor 92) ++ shaFinish s.inner)

/-- One-shot HMAC-SHA256 (the `openssl::crypto::hmac::hmac` function). -/
def hmac256 (key data : List Nat) : List Nat :=
  hmacFinish (hmacInput (hmacNew key) data)

/-- `Hmac256::compute`: run the one-shot HMAC and copy the first 32 bytes
into the fixed-size newtype (`Hmac256::new`). -/
def hmac256Of (key data : List Nat) : List Nat := (hmac256 key data).take 32

/-! ## Hex codec (rustc_serialize ToHex / FromHex as used by util.rs and the
`to_hex!` macro of lib.rs) -/

/-- Lowercase hex digit for a nibble, as its ASCII byte. -/
def hexDigit (n : Nat) : Nat := if n < 10 then 48 + n else 87 + n

/-- rustc_serialize `ToHex` (util.rs `to_hex`): two lowercase digits per
byte, high nibble first, no separators. -/
def to_hex : List Nat → List Nat
  | [] => []
  | b :: rest => hexDigit (Nat.land (b >>> 4) 15) :: hexDigit (Nat.land b 15) :: to_hex rest

/-- The `to_hex!` macro of lib.rs: formats each byte with `{:02x}`. -/
def to_hex_fmt : List Nat → List Nat
  | [] => []
  | b :: rest => hexDigit (b / 16 % 16) :: hexDigit (b % 16) :: to_hex_fmt rest

/-- rustc_serialize hex decoding failures: a non-hex character with its
index, or an odd count of hex digits. -/
inductive FromHexError
  | invalidHexCharacter : Nat → Nat → FromHexError
  | invalidHexLength : FromHexError
deriving DecidableEq, Repr

/-- Value of an ASCII byte as a hex digit, accepting both cases on decode. -/
def hexVal (b : Nat) : Option Nat :=
  if 65 ≤ b ∧ b ≤ 70 then some (b - 55)
  else if 97 ≤ b ∧ b ≤ 102 then some (b - 87)
  else if 48 ≤ b ∧ b ≤ 57 then some (b - 48)
  else none

/-- Whitespace bytes skipped by rustc_serialize `FromHex`. -/
def isHexSpace (b : Nat) : Bool := b = 32 || b = 13 || b = 10 || b = 9

/-- The rustc_serialize `FromHex` loop.  `buf` is the u8 accumulator: each
byte first shifts it left by four (wrapping, hence `% 256`); a hex digit is
or-ed into the low nibble and every second digit is pushed; whitespace undoes
the shift (`buf >>= 4` after the wrapping `buf <<= 4`). -/
def fromHexLoop : List Nat → Nat → Nat → Nat → List Nat → Except FromHexError (List Nat)
  | [], _, modulus, _, acc =>
      if modulus = 0 then .ok acc.reverse else .error .invalidHexLength
  | b :: rest, idx, modulus, buf, acc =>
      let buf1 := buf * 16 % 256
      match hexVal b with
      | some v =>
          let buf2 := Nat.lor buf1 v
          if modulus = 1 then fromHexLoop rest (idx + 1) 0 buf2 (buf2 :: acc)
          else fromHexLoop rest (idx + 1) 1 buf2 acc
      | none =>
          if isHexSpace b then fromHexLoop rest (idx + 1) modulus (buf1 / 16) acc
          else .error (.invalidHexCharacter b idx)

/-- rustc_serialize `from_hex` over the bytes of a string. -/
def from_hex (bytes : List Nat) : Except FromHexError (List Nat) :=
  fromHexLoop bytes 0 0 0 []

/-! ## UTF-8 validation (`std::str::from_utf8`) -/

/-- UTF-8 validity automaton, per `std::str::from_utf8`.  `need` is the
number of continuation bytes still required, and `lo`/`hi` bound the next
byte when `need > 0` (the bounds on the first continuation byte exclude
overlong forms, surrogates, and scalar values above 0x10FFFF; later
continuation bytes use the plain range 128..191). -/
def utf8Run : List Nat → Nat → Nat → Nat → Bool
  | [], need, _, _ => need = 0
  | b :: rest, 0, _, _ =>
      if b < 128 then utf8Run rest 0 0 0
      else if b < 194 then false
      else if b < 224 then utf8Run rest 1 128 191
      else if b = 224 then utf8Run rest 2 160 191
      else if b = 237 then utf8Run rest 2 128 159
      else if b < 240 then utf8Run rest 2 128 191
      else if b = 240 then utf8Run rest 3 144 191
      else if b = 244 then utf8Run rest 3 128 143
      else if b < 245 then utf8Run rest 3 128 191
      else false
  | b :: rest, need + 1, lo, hi =>
      if lo ≤ b ∧ b ≤ hi then utf8Run rest need 128 191 else false

/-- Validity of a byte sequence as UTF-8, per `std::str::from_utf8`. -/
def utf8Valid (l : List Nat) : Bool := utf8Run l 0 0 0

/-- util.rs errors that can arise from `from_hex` (error.rs variants
`Utf8Error` and `DecodingHex`). -/
inductive UtilError
  | utf8Error : UtilError
  | decodingHex : FromHexError → UtilError
deriving DecidableEq, Repr

/-- util.rs `from_hex`: interpret bytes as UTF-8, then hex-decode. -/
def util_from_hex (v : List Nat) : Except UtilError (List Nat) :=
  if utf8Valid v then
    match from_hex v with
    | .ok r => .ok r
    | .error e => .error (.decodingHex e)
  else .error .utf8Error

/-! ## Comparators and buffering helpers -/

/-- util.rs `contant_time_equals`, delegating to the constant_time_eq crate:
false on differing lengths, otherwise an or-accumulated xor over all byte
pairs compared against zero. -/
def contant_time_equals (a b : List Nat) : Bool :=
  if a.length ≠ b.length then false
  else ((List.zipWith Nat.xor a b).foldl Nat.lor 0) == 0

/-- `openssl::crypto::memcmp::eq`: asserts the lengths are equal (`none`
models the panic), then compares the or-accumulated xor against zero. -/
def memcmpEq (a b : List Nat) : Option Bool :=
  if a.length = b.length then
    some (((List.zipWith Nat.xor a b).foldl Nat.lor 0) == 0)
  else none

/-- util.rs / lib.rs `extend_vec` loop: byte-by-byte append of the extension
onto the vector. -/
def extend_vec (vec extension : List Nat) : List Nat :=
  extension.foldl (fun v b => v ++ [b]) vec

/-! ## The middleware (lib.rs) -/

/-- The iron status codes appearing in the middleware. -/
inductive Status
  | ok
  | forbidden
  | badRequest
  | internalServerError
deriving DecidableEq, Repr

/-- The `forbidden!` macro outcome: a `StringError` with this description
and status Forbidden. -/
def forbiddenOut : String × Status := ("Failed HMAC authentication", Status.forbidden)

/-- Result of `req.get::<bodyparser::Raw>()`: a body string (`some`), no
body (`none`), or a body-read failure. -/
inductive BodyResult
  | ok : Option (List Nat) → BodyResult
  | readError : BodyResult
deriving DecidableEq, Repr

/-- lib.rs `compute_request_hmac`: on body-read failure invoke `forbidden!`;
otherwise HMAC the method, path and body separately, feed the three digests
incrementally to a fresh keyed HMAC, and copy its 32-byte result. -/
def compute_request_hmac (secret : List Nat) (bodyResult : BodyResult)
    (method path : List Nat) : Except (String × Status) (List Nat) :=
  match bodyResult with
  | .readError => .error forbiddenOut
  | .ok b =>
      let body := b.getD []
      let methodHmac := hmac256Of secret method
      let pathHmac := hmac256Of secret path
      let bodyHmac := hmac256Of secret body
      let merged := hmacInput (hmacInput (hmacInput (hmacNew secret) methodHmac) pathHmac) bodyHmac
      .ok ((hmacFinish merged).take 32)

/-- lib.rs `before`.  `headerValues` is the result of
`req.headers.get_raw(hmac_header_key)`.  A `none` result models a panic:
`hmac[0]` on an empty value list, or `from_utf8(..).unwrap()` on a value
that is not valid UTF-8. -/
def before (secret : List Nat) (headerValues : Option (List (List Nat)))
    (bodyResult : BodyResult) (method path : List Nat) :
    Option (Except (String × Status) Unit) :=
  match compute_request_hmac secret bodyResult method path with
  | .error e => some (.error e)
  | .ok computed =>
      match headerValues with
      | none => some (.error forbiddenOut)
      | some vs =>
          match vs.head? with
          | none => none
          | some v =>
              if utf8Valid v then
                if v.length ≠ 64 then
                  some (.error ("Incorrect HMAC length", Status.badRequest))
                else
                  match from_hex v with
                  | .error _ => some (.error forbiddenOut)
                  | .ok supplied =>
                      if computed.length ≠ supplied.length then some (.error forbiddenOut)
                      else
                        match memcmpEq computed supplied with
                        | none => none
                        | some true => some (.ok ())
                        | some false => some (.error forbiddenOut)
              else none

/-- An iron response, restricted to the fields the after middleware touches. -/
structure Response where
  status : Nat
  body : Option (List Nat)
  headers : List (String × List (List Nat))
deriving DecidableEq, Repr

/-- `Headers::set_raw`: replace the entry for the name, appending when absent. -/
def setRaw : List (String × List (List Nat)) → String → List (List Nat) →
    List (String × List (List Nat))
  | [], k, v => [(k, v)]
  | (k2, v2) :: rest, k, v =>
      if k2 = k then (k, v) :: rest else (k2, v2) :: setRaw rest k v

/-- `Headers::get_raw` on the assoc-list model. -/
def getRaw (hs : List (String × List (List Nat))) (k : String) : Option (List (List Nat)) :=
  (hs.find? (fun kv => kv.1 == k)).map (fun kv => kv.2)

/-- lib.rs `compute_response_hmac`: write the body into a fresh `Buffer`
(via the `extend_vec` loop), HMAC the buffered bytes, and put the buffer
back as the response body. -/
def compute_response_hmac (secret : List Nat) (res : Response) : List Nat × Response :=
  let body := match res.body with
    | some b => extend_vec [] b
    | none => []
  let responseHmac := hmac256 secret body
  (responseHmac, { res with body := some body })

/-- lib.rs `after`: compute the response HMAC, hex-encode it with the
`to_hex!` macro, and set it under the configured header name. -/
def after (secret : List Nat) (headerKey : String) (res : Response) : Response :=
  let hd := compute_response_hmac secret res
  { hd.2 with headers := setRaw hd.2.headers headerKey [to_hex_fmt hd.1] }

/-- The nested request digest formula exactly as the spec states it:
`HMAC(secret, HMAC(secret, method) || HMAC(secret, path) || HMAC(secret, body))`. -/
def requestDigestSpec (secret method path body : List Nat) : List Nat :=
  hmac256 secret (hmac256 secret method ++ hmac256 secret path ++ hmac256 secret body)

/-- A lowercase hex ASCII byte (digit or lowercase letter a-f). -/
def isLowerHexAscii (c : Nat) : Bool := decide ((48 ≤ c ∧ c ≤ 57) ∨ (97 ≤ c ∧ c ≤ 102))

/-! ## Concrete data from the repository's integration tests (tests/lib.rs):
secret `"rust :)"`, header `x-hmac`, request `GET /` with empty body. -/

/-- The test secret `"rust :)"` as bytes. -/
def secretA : List Nat := [114, 117, 115, 116, 32, 58, 41]

/-- `"GET"` as bytes. -/
def methodA : List Nat := [71, 69, 84]

/-- `"/"` as bytes. -/
def pathA : List Nat := [47]

/-- `"Hello, world!"` as bytes. -/
def helloBody : List Nat := [72, 101, 108, 108, 111, 44, 32, 119, 111, 114, 108, 100, 33]

/-- The expected request digest of scenario A, as raw bytes. -/
def reqDigestA : List Nat :=
  [250, 100, 254, 185, 79, 29, 100, 157, 67, 90, 230, 220, 224, 9, 255, 7,
   103, 245, 124, 15, 32, 134, 125, 222, 95, 143, 103, 18, 254, 163, 167, 190]

/-- The scenario A request header value (the digest hex-encoded, as ASCII). -/
def reqHeaderA : List Nat :=
  [102, 97, 54, 52, 102, 101, 98, 57, 52, 102, 49, 100, 54, 52, 57, 100,
   52, 51, 53, 97, 101, 54, 100, 99, 101, 48, 48, 57, 102, 102, 48, 55,
   54, 55, 102, 53, 55, 99, 48, 102, 50, 48, 56, 54, 55, 100, 100, 101,
   53, 102, 56, 102, 54, 55, 49, 50, 102, 101, 97, 51, 97, 55, 98, 101]

/-- The expected response digest of scenario A, as raw bytes. -/
def respDigestA : List Nat :=
  [204, 199, 223, 226, 77, 224, 55, 92, 196, 144, 103, 87, 107, 105, 186, 77,
   104, 190, 85, 76, 159, 134, 251, 61, 173, 252, 5, 60, 232, 79, 113, 160]


/-- A syntactically well-formed header value that will not match any digest
here: sixty-four ASCII zero characters (decoding to 32 zero bytes). -/
def zeroHeaderA : List Nat := List.replicate 64 48

/-- A 64-character header value containing no hex digits: sixty-four `z`. -/
def nonHexHeaderA : List Nat := List.replicate 64 122

/-! ## Derived lemmas -/

theorem regsToBytes_length (r : Regs) : (regsToBytes r).length = 32 := by
  simp [regsToBytes, u32be]

theorem sha256_length (m : List Nat) : (sha256 m).length = 32 := by
  unfold sha256 shaFinish
  exact regsToBytes_length _

theorem hmac256_length (k d : List Nat) : (hmac256 k d).length = 32 := by
  unfold hmac256 hmacFinish
  exact sha256_length _

theorem hmac256Of_eq (k d : List Nat) : hmac256Of k d = hmac256 k d := by
  show (hmac256 k d).take 32 = hmac256 k d
  rw [← hmac256_length k d, List.take_length]

theorem shaUpdate_append (s : Sha256State) (a b : List Nat) :
    shaUpdate s (a ++ b) = shaUpdate (shaUpdate s a) b :=
  List.foldl_append _ _ _ _

theorem hmacInput_append (st : HmacState) (a b : List Nat) :
    hmacInput (hmacInput st a) b = hmacInput st (a ++ b) := by
  simp [hmacInput, shaUpdate_append]

theorem compute_request_hmac_ok (secret method path : List Nat) (b : Option (List Nat)) :
    compute_request_hmac secret (.ok b) method path =
      .ok (requestDigestSpec secret method path (b.getD [])) := by
  have h3 : ∀ (st : HmacState) (x y z : List Nat),
      hmacInput (hmacInput (hmacInput st x) y) z = hmacInput st (x ++ y ++ z) := by
    intro st x y z
    rw [hmacInput_append, hmacInput_append, List.append_assoc]
  show Except.ok ((hmacFinish _).take 32) = _
  rw [h3, hmac256Of_eq, hmac256Of_eq, hmac256Of_eq]
  show Except.ok ((hmac256 secret _).take 32) = _
  rw [← hmac256_length secret
        (hmac256 secret method ++ hmac256 secret path ++ hmac256 secret (b.getD [])),
      List.take_length]
  rfl

theorem requestDigestSpec_length (secret m p bd : List Nat) :
    (requestDigestSpec secret m p bd).length = 32 :=
  hmac256_length _ _

theorem u32be_lt (x : Nat) : ∀ y ∈ u32be x, y < 256 := by
  simp only [u32be, List.mem_cons, List.not_mem_nil, or_false]
  intro y h
  rcases h with h | h | h | h <;> subst h <;> exact Nat.mod_lt _ (by decide)

/-- All digest bytes are below 256. -/
theorem regsToBytes_lt (r : Regs) : ∀ x ∈ regsToBytes r, x < 256 := by
  simp only [regsToBytes, List.mem_append]
  intro x h
  rcases h with ((((((h | h) | h) | h) | h) | h) | h) | h <;> exact u32be_lt _ _ h

theorem sha256_lt (m : List Nat) : ∀ x ∈ sha256 m, x < 256 := by
  unfold sha256 shaFinish
  exact regsToBytes_lt _

theorem hmac256_lt (k d : List Nat) : ∀ x ∈ hmac256 k d, x < 256 := by
  unfold hmac256 hmacFinish
  exact sha256_lt _

/-- `Nat.xor` restated on the bare function, as it appears after `foldl`. -/
theorem nat_xor_eq_zero (a b : Nat) : Nat.xor a b = 0 ↔ a = b := Nat.xor_eq_zero

/-- `Nat.lor` vanishes exactly when both arguments do. -/
theorem lor_eq_zero_iff (a b : Nat) : Nat.lor a b = 0 ↔ a = 0 ∧ b = 0 := by
  show a ||| b = 0 ↔ _
  constructor
  · intro h
    refine ⟨Nat.zero_of_testBit_eq_false fun i => ?_,
            Nat.zero_of_testBit_eq_false fun i => ?_⟩ <;>
    · have hh := congrArg (fun x => Nat.testBit x i) h
      simp [Nat.testBit_or] at hh
      simp [hh]
  · rintro ⟨rfl, rfl⟩
    rfl

theorem foldl_lor_zero_iff (l : List Nat) :
    ∀ acc, (l.foldl Nat.lor acc = 0 ↔ acc = 0 ∧ ∀ x ∈ l, x = 0) := by
  induction l with
  | nil => simp
  | cons x xs ih =>
      intro acc
      rw [List.foldl_cons, ih, lor_eq_zero_iff]
      simp [and_assoc, List.forall_mem_cons]

theorem zipWith_xor_all_zero (a : List Nat) :
    ∀ b : List Nat, a.length = b.length →
      ((∀ w ∈ List.zipWith Nat.xor a b, w = 0) ↔ a = b) := by
  induction a with
  | nil =>
      intro b h
      cases b with
      | nil => simp
      | cons y ys => simp at h
  | cons x xs ih =>
      intro b h
      cases b with
      | nil => simp at h
      | cons y ys =>
          simp only [List.length_cons, Nat.add_right_cancel_iff] at h
          simp [List.zipWith_cons_cons, List.forall_mem_cons, nat_xor_eq_zero, ih ys h]

/-- The or-accumulated xor of two equal-length byte lists vanishes exactly on
equal lists. -/
theorem xorFold_zero_iff (a b : List Nat) (h : a.length = b.length) :
    ((List.zipWith Nat.xor a b).foldl Nat.lor 0 = 0) ↔ a = b := by
  rw [foldl_lor_zero_iff]
  simp [zipWith_xor_all_zero a b h]

theorem extend_vec_eq_append (vec : List Nat) :
    ∀ extension : List Nat, extend_vec vec extension = vec ++ extension := by
  suffices h : ∀ (extension vec2 : List Nat),
      extension.foldl (fun v b => v ++ [b]) vec2 = vec2 ++ extension by
    intro e
    exact h e vec
  intro extension
  induction extension with
  | nil => simp
  | cons x xs ih =>
      intro v2
      rw [List.foldl_cons, ih]
      simp

/-! ## Hex codec lemmas -/

theorem nat_land_le (a b : Nat) : Nat.land a b ≤ b := Nat.and_le_right

theorem hexVal_hexDigit : ∀ x, x < 16 → hexVal (hexDigit x) = some x := by decide

theorem hexDigit_lt_128 : ∀ x, x < 16 → hexDigit x < 128 := by decide

theorem to_hex_ascii (bs : List Nat) : ∀ x ∈ to_hex bs, x < 128 := by
  induction bs with
  | nil => simp [to_hex]
  | cons b rest ih =>
      simp only [to_hex, List.mem_cons]
      intro x h
      rcases h with h | h | h
      · subst h; exact hexDigit_lt_128 _ (Nat.lt_succ_of_le (nat_land_le _ 15))
      · subst h; exact hexDigit_lt_128 _ (Nat.lt_succ_of_le (nat_land_le _ 15))
      · exact ih x h

theorem utf8Valid_ascii (l : List Nat) (h : ∀ x ∈ l, x < 128) : utf8Valid l = true := by
  show utf8Run l 0 0 0 = true
  induction l with
  | nil => rfl
  | cons b rest ih =>
      have hb : b < 128 := h b (by simp)
      show (if b < 128 then utf8Run rest 0 0 0 else _) = true
      rw [if_pos hb]
      exact ih fun x hx => h x (by simp [hx])

theorem hex_pair_assemble : ∀ c < 16, ∀ hi < 16, ∀ lo < 16,
    Nat.lor (Nat.lor (c * 16) hi * 16 % 256) lo = 16 * hi + lo := by decide

theorem byte_split : ∀ b < 256, 16 * Nat.land (b >>> 4) 15 + Nat.land b 15 = b := by decide

theorem buf_shift (buf : Nat) : buf * 16 % 256 = buf % 16 * 16 := by
  rw [show (256 : Nat) = 16 * 16 from rfl, Nat.mul_mod_mul_right]

/-- One hex digit at even position: shift the accumulator and or in the nibble. -/
theorem fromHexLoop_step (x v : Nat) (hv : hexVal x = some v) (rest : List Nat)
    (idx buf : Nat) (acc : List Nat) :
    fromHexLoop (x :: rest) idx 0 buf acc =
      fromHexLoop rest (idx + 1) 1 (Nat.lor (buf * 16 % 256) v) acc := by
  conv_lhs => rw [fromHexLoop]
  rw [hv]
  exact rfl

/-- One hex digit at odd position: shift, or in the nibble, push the byte. -/
theorem fromHexLoop_step2 (x v : Nat) (hv : hexVal x = some v) (rest : List Nat)
    (idx buf : Nat) (acc : List Nat) :
    fromHexLoop (x :: rest) idx 1 buf acc =
      fromHexLoop rest (idx + 1) 0 (Nat.lor (buf * 16 % 256) v)
        (Nat.lor (buf * 16 % 256) v :: acc) := by
  conv_lhs => rw [fromHexLoop]
  rw [hv]
  exact rfl

/-- Decoding one encoded byte advances the loop two characters and pushes
exactly that byte. -/
theorem fromHexLoop_byte (b : Nat) (hb : b < 256) (rest : List Nat) (idx buf : Nat)
    (acc : List Nat) :
    fromHexLoop (hexDigit (Nat.land (b >>> 4) 15) :: hexDigit (Nat.land b 15) :: rest)
        idx 0 buf acc =
      fromHexLoop rest (idx + 2) 0 b (b :: acc) := by
  have hhi : Nat.land (b >>> 4) 15 < 16 := Nat.lt_succ_of_le (nat_land_le _ 15)
  have hlo : Nat.land b 15 < 16 := Nat.lt_succ_of_le (nat_land_le _ 15)
  rw [fromHexLoop_step _ _ (hexVal_hexDigit _ hhi),
      fromHexLoop_step2 _ _ (hexVal_hexDigit _ hlo),
      buf_shift buf,
      hex_pair_assemble (buf % 16) (Nat.mod_lt _ (by decide)) _ hhi _ hlo,
      byte_split b hb]

theorem fromHexLoop_to_hex (bs : List Nat) :
    ∀ (idx buf : Nat) (acc : List Nat), (∀ x ∈ bs, x < 256) →
      fromHexLoop (to_hex bs) idx 0 buf acc = .ok (acc.reverse ++ bs) := by
  induction bs with
  | nil =>
      intro idx buf acc _
      simp [to_hex, fromHexLoop]
  | cons b rest ih =>
      intro idx buf acc h
      have hb : b < 256 := h b (by simp)
      rw [show to_hex (b :: rest) =
            hexDigit (Nat.land (b >>> 4) 15) :: hexDigit (Nat.land b 15) :: to_hex rest
          from rfl]
      rw [fromHexLoop_byte b hb, ih (idx + 2) b (b :: acc) fun x hx => h x (by simp [hx])]
      simp

end IronHmac


/-- The embedded HMAC matches the repository's response test vector:
`hmac("rust :)", "Hello, world!")`. -/
theorem hmac256_response_vector :
    IronHmac.hmac256 IronHmac.secretA IronHmac.helloBody = IronHmac.respDigestA := by
  decide

/-- The embedded request digest matches the repository's request test vector
for `GET /` with empty body. -/
theorem compute_request_hmac_vector :
    IronHmac.compute_request_hmac IronHmac.secretA (.ok none) IronHmac.methodA IronHmac.pathA =
      .ok IronHmac.reqDigestA := by
  decide

/-- Scratch check: SHA-256 of the empty message matches the published digest. -/
theorem sha256_empty_vector :
    IronHmac.sha256 [] =
      [227, 176, 196, 66, 152, 252, 28, 20, 154, 251, 244, 200, 153, 111, 185, 36,
       39, 174, 65, 228, 100, 155, 147, 76, 164, 149, 153, 27, 120, 82, 184, 85] := by
  decide

namespace IronHmac

/-! ## Header attachment and encoding lemmas for the response path -/

theorem find_setRaw (k : String) (v : List (List Nat)) :
    ∀ hs, List.find? (fun kv => kv.1 == k) (setRaw hs k v) = some (k, v) := by
  intro hs
  induction hs with
  | nil => simp [setRaw, List.find?]
  | cons kv rest ih =>
      obtain ⟨k2, v2⟩ := kv
      by_cases h : k2 = k
      · subst h
        simp [setRaw, List.find?]
      · simp [setRaw, h, List.find?, ih]

theorem getRaw_setRaw (k : String) (v : List (List Nat))
    (hs : List (String × List (List Nat))) : getRaw (setRaw hs k v) k = some v := by
  simp [getRaw, find_setRaw]

theorem to_hex_fmt_length (bs : List Nat) : (to_hex_fmt bs).length = 2 * bs.length := by
  induction bs with
  | nil => simp [to_hex_fmt]
  | cons b rest ih =>
      simp [to_hex_fmt, ih]
      omega

theorem hexDigit_lower : ∀ k, k < 16 → isLowerHexAscii (hexDigit k) = true := by decide

theorem to_hex_fmt_all_lower (bs : List Nat) :
    (to_hex_fmt bs).all isLowerHexAscii = true := by
  induction bs with
  | nil => rfl
  | cons b rest ih =>
      simp only [to_hex_fmt, List.all_cons, ih, Bool.and_true,
        hexDigit_lower (b / 16 % 16) (Nat.mod_lt _ (by decide)),
        hexDigit_lower (b % 16) (Nat.mod_lt _ (by decide))]

/-! ## Claim theorems -/

/-- C1: for every secret, method bytes, path bytes and (optional) body, the
request digest the authenticator computes by feeding the three sub-digests
incrementally to one keyed digest equals
`HMAC_SHA256(secret, HMAC_SHA256(secret, method) || HMAC_SHA256(secret, path)
|| HMAC_SHA256(secret, body))`, with the three 32-byte sub-digests in the
fixed order method, path, body, and an absent body contributing zero bytes. -/
theorem request_digest_is_nested_hmac (secret method path : List Nat)
    (body : Option (List Nat)) :
    compute_request_hmac secret (.ok body) method path =
      .ok (hmac256 secret
        (hmac256 secret method ++ hmac256 secret path ++ hmac256 secret (body.getD []))) :=
  compute_request_hmac_ok secret method path body

/-- C3: for every response body, the signer attaches under the configured
header name exactly `hex_encode(HMAC_SHA256(secret, body))`, a value of
exactly 64 lowercase hexadecimal characters, two per byte. -/
theorem response_sign_hex (secret : List Nat) (key : String) (res : Response) :
    getRaw (after secret key res).headers key =
        some [to_hex_fmt (hmac256 secret (res.body.getD []))] ∧
      (to_hex_fmt (hmac256 secret (res.body.getD []))).length = 64 ∧
      (to_hex_fmt (hmac256 secret (res.body.getD []))).all isLowerHexAscii = true := by
  refine ⟨?_, ?_, to_hex_fmt_all_lower _⟩
  · cases res with
    | mk st bd hs =>
        cases bd with
        | none => simp [after, compute_response_hmac, getRaw_setRaw]
        | some b => simp [after, compute_response_hmac, extend_vec_eq_append, getRaw_setRaw]
  · rw [to_hex_fmt_length, hmac256_length]

/-- C7: hex-decoding the hex encoding of any byte sequence returns exactly
that sequence (util.rs `from_hex` after util.rs `to_hex`). -/
theorem hex_round_trip (bs : List Nat) (h : ∀ x ∈ bs, x < 256) :
    util_from_hex (to_hex bs) = .ok bs := by
  unfold util_from_hex
  rw [if_pos (utf8Valid_ascii _ (to_hex_ascii bs))]
  unfold from_hex
  rw [fromHexLoop_to_hex bs 0 0 [] h]
  simp

/-- C7 witness: the round-trip law evaluated at a concrete byte sequence. -/
theorem hex_round_trip_witness :
    (∀ x ∈ [0, 15, 16, 171, 255], x < 256) ∧
      util_from_hex (to_hex [0, 15, 16, 171, 255]) = .ok [0, 15, 16, 171, 255] :=
  ⟨by decide, hex_round_trip [0, 15, 16, 171, 255] (by decide)⟩

/-- C8: the byte comparator used for digest verification returns true exactly
on byte-for-byte equal inputs, and returns false whenever lengths differ. -/
theorem contant_time_equals_spec (a b : List Nat) :
    (contant_time_equals a b = true ↔ a = b) ∧
    (a.length ≠ b.length → contant_time_equals a b = false) := by
  constructor
  · constructor
    · intro h
      by_cases hl : a.length = b.length
      · unfold contant_time_equals at h
        rw [if_neg (fun hc => hc hl)] at h
        exact (xorFold_zero_iff a b hl).mp (by simpa using h)
      · unfold contant_time_equals at h
        rw [if_pos hl] at h
        exact absurd h (by simp)
    · intro h
      subst h
      unfold contant_time_equals
      rw [if_neg (fun hc => hc rfl), (xorFold_zero_iff a a rfl).mpr rfl]
      rfl
  · intro hl
    unfold contant_time_equals
    rw [if_pos hl]

/-- C8 witness: the comparator specification applied at concrete lists of
different lengths. -/
theorem contant_time_equals_spec_witness :
    (contant_time_equals [1, 2] [1] = true ↔ [1, 2] = [1]) ∧
    (([1, 2] : List Nat).length ≠ ([1] : List Nat).length →
      contant_time_equals [1, 2] [1] = false) :=
  contant_time_equals_spec [1, 2] [1]

/-- C9: after signing, the body handed onward is exactly the bytes the digest
was computed over, and nothing else in the response changes except the added
digest header. -/
theorem after_buffers_and_restores_body (secret : List Nat) (key : String) (res : Response) :
    after secret key res =
      { status := res.status,
        body := some (res.body.getD []),
        headers := setRaw res.headers key [to_hex_fmt (hmac256 secret (res.body.getD []))] } := by
  cases res with
  | mk st bd hs =>
      cases bd with
      | none => simp [after, compute_response_hmac]
      | some b => simp [after, compute_response_hmac, extend_vec_eq_append]

/-- C10: only the first value under the configured header name affects the
outcome; any later values are ignored. -/
theorem before_ignores_extra_header_values (secret v : List Nat)
    (rest1 rest2 : List (List Nat)) (b : BodyResult) (method path : List Nat) :
    before secret (some (v :: rest1)) b method path =
      before secret (some (v :: rest2)) b method path := by
  cases hc : compute_request_hmac secret b method path with
  | error e => simp [before, hc]
  | ok computed => simp [before, hc, List.head?_cons]

end IronHmac

namespace IronHmac

/-- Evaluation of `before` when the header is present, valid UTF-8, 64
characters long, and hex-decodes to a 32-byte value: the outcome depends only
on whether the decoded digest equals the expected request digest. -/
theorem before_eval (secret v : List Nat) (rest : List (List Nat)) (b : Option (List Nat))
    (method path supplied : List Nat)
    (hu : utf8Valid v = true) (hlen : v.length = 64)
    (hx : from_hex v = .ok supplied) (hsl : supplied.length = 32) :
    before secret (some (v :: rest)) (.ok b) method path =
      if requestDigestSpec secret method path (b.getD []) = supplied
      then some (.ok ()) else some (.error forbiddenOut) := by
  have hD := compute_request_hmac_ok secret method path b
  have hDlen : (requestDigestSpec secret method path (b.getD [])).length = 32 :=
    requestDigestSpec_length _ _ _ _
  by_cases heq : requestDigestSpec secret method path (b.getD []) = supplied
  · rw [if_pos heq]
    have hz : (List.zipWith Nat.xor (requestDigestSpec secret method path (b.getD []))
        supplied).foldl Nat.lor 0 = 0 :=
      (xorFold_zero_iff _ _ (by rw [hDlen, hsl])).mpr heq
    simp [before, hD, List.head?_cons, hu, hlen, hx, memcmpEq, hDlen, hsl, hz]
  · rw [if_neg heq]
    have hz : ¬ (List.zipWith Nat.xor (requestDigestSpec secret method path (b.getD []))
        supplied).foldl Nat.lor 0 = 0 :=
      fun h0 => heq ((xorFold_zero_iff _ _ (by rw [hDlen, hsl])).mp h0)
    have hzb : ((List.zipWith Nat.xor (requestDigestSpec secret method path (b.getD []))
        supplied).foldl Nat.lor 0 == 0) = false := by
      cases hbb : ((List.zipWith Nat.xor (requestDigestSpec secret method path (b.getD []))
          supplied).foldl Nat.lor 0 == 0) with
      | true => exact absurd (by simpa using hbb) hz
      | false => rfl
    simp [before, hD, List.head?_cons, hu, hlen, hx, memcmpEq, hDlen, hsl, hzb]

/-- C2: when the configured header is present and decodes to a 32-byte value,
the request is allowed exactly when the decoded supplied digest equals the
expected request digest byte-for-byte; when they differ the request is
rejected with the authentication-failure outcome. -/
theorem before_allowed_iff_digest_matches (secret v : List Nat) (rest : List (List Nat))
    (b : Option (List Nat)) (method path supplied : List Nat)
    (hu : utf8Valid v = true) (hlen : v.length = 64)
    (hx : from_hex v = .ok supplied) (hsl : supplied.length = 32) :
    (before secret (some (v :: rest)) (.ok b) method path = some (.ok ()) ↔
        supplied = requestDigestSpec secret method path (b.getD [])) ∧
    (supplied ≠ requestDigestSpec secret method path (b.getD []) →
        before secret (some (v :: rest)) (.ok b) method path = some (.error forbiddenOut)) := by
  have he := before_eval secret v rest b method path supplied hu hlen hx hsl
  constructor
  · rw [he]
    by_cases heq : requestDigestSpec secret method path (b.getD []) = supplied
    · rw [if_pos heq]
      exact ⟨fun _ => heq.symm, fun _ => rfl⟩
    · rw [if_neg heq]
      constructor
      · intro hcontra
        exact absurd hcontra (by simp)
      · intro hs2
        exact absurd hs2.symm heq
  · intro hne
    rw [he, if_neg fun hc => hne hc.symm]

/-- C2 witness: scenario A of tests/lib.rs — secret `"rust :)"`, request
`GET /` with empty body and the published 64-character header value — is
allowed. -/
theorem before_allowed_iff_digest_matches_witness :
    before secretA (some [reqHeaderA]) (.ok none) methodA pathA = some (.ok ()) :=
  ((before_allowed_iff_digest_matches secretA reqHeaderA [] none methodA pathA reqDigestA
      (by decide) (by decide) (by decide) (by decide)).1).mpr (by decide)

/-- C4 amended: an absent header is rejected with the same generic Forbidden
`"Failed HMAC authentication"` outcome used for an authentication mismatch; a
present value whose byte length is not 64 is rejected with the distinct
BadRequest `"Incorrect HMAC length"` outcome; a 64-byte value whose
hex-decoding fails is rejected with the same generic Forbidden outcome as a
mismatch (the length check runs before hex decoding). -/
theorem before_header_error_taxonomy (secret method path : List Nat) (b : Option (List Nat))
    (v : List Nat) (rest : List (List Nat)) (hu : utf8Valid v = true) :
    (before secret none (.ok b) method path = some (.error forbiddenOut)) ∧
    (v.length ≠ 64 →
      before secret (some (v :: rest)) (.ok b) method path =
        some (.error ("Incorrect HMAC length", Status.badRequest))) ∧
    (∀ e, from_hex v = .error e → v.length = 64 →
      before secret (some (v :: rest)) (.ok b) method path =
        some (.error forbiddenOut)) := by
  have hD := compute_request_hmac_ok secret method path b
  refine ⟨?_, ?_, ?_⟩
  · simp [before, hD]
  · intro hlen
    simp [before, hD, List.head?_cons, hu, hlen]
  · intro e he hlen
    simp [before, hD, List.head?_cons, hu, hlen, he]

/-- C4 amended witness: the taxonomy applied to the concrete 64-character
non-hex header value of sixty-four `z` characters. -/
theorem before_header_error_taxonomy_witness :
    (before secretA none (.ok none) methodA pathA = some (.error forbiddenOut)) ∧
    (nonHexHeaderA.length ≠ 64 →
      before secretA (some [nonHexHeaderA]) (.ok none) methodA pathA =
        some (.error ("Incorrect HMAC length", Status.badRequest))) ∧
    (∀ e, from_hex nonHexHeaderA = .error e → nonHexHeaderA.length = 64 →
      before secretA (some [nonHexHeaderA]) (.ok none) methodA pathA =
        some (.error forbiddenOut)) :=
  before_header_error_taxonomy secretA methodA pathA none nonHexHeaderA [] (by decide)

/-- C4 counterexample: the missing-header rejection and the failed-hex
rejection are byte-identical to the authentication-mismatch rejection — all
three go through the same `forbidden!` outcome, so the claimed distinct
`MissingHeader` and `MalformedHeader` reasons do not exist in the code. -/
theorem before_reasons_not_distinct_cex :
    before secretA none (.ok none) methodA pathA =
        before secretA (some [zeroHeaderA]) (.ok none) methodA pathA ∧
      before secretA (some [nonHexHeaderA]) (.ok none) methodA pathA =
        before secretA (some [zeroHeaderA]) (.ok none) methodA pathA ∧
      before secretA (some [zeroHeaderA]) (.ok none) methodA pathA ≠ some (.ok ()) := by
  decide

/-- C5 amended: a body-read failure is always rejected — never Allowed and
never silently treated as an empty body — but with the same generic Forbidden
outcome the middleware uses for an authentication mismatch, not a distinct
body-read condition. -/
theorem before_body_error_rejects (secret : List Nat) (hdr : Option (List (List Nat)))
    (method path : List Nat) :
    before secret hdr .readError method path = some (.error forbiddenOut) := rfl

/-- C5 counterexample: on a body-read failure the middleware returns exactly
the same outcome as an authentication mismatch on the same request, so no
distinct `BodyReadError` condition is surfaced. -/
theorem before_body_error_same_as_mismatch_cex :
    before secretA (some [zeroHeaderA]) .readError methodA pathA =
        before secretA (some [zeroHeaderA]) (.ok none) methodA pathA ∧
      before secretA (some [zeroHeaderA]) (.ok none) methodA pathA ≠ some (.ok ()) := by
  decide

/-- C6 amended: whenever the first supplied header value is valid UTF-8 (and
always when the body read fails first), `before` is total and returns an
outcome; the `from_utf8(..).unwrap()` panic is reachable only for header
values that are not valid UTF-8. -/
theorem before_total_on_utf8_headers (secret v : List Nat) (rest : List (List Nat))
    (b : BodyResult) (method path : List Nat) (hu : utf8Valid v = true) :
    (before secret (some (v :: rest)) b method path).isSome = true := by
  cases b with
  | readError => rfl
  | ok bb =>
      have hD := compute_request_hmac_ok secret method path bb
      by_cases hlen : v.length = 64
      · cases hfx : from_hex v with
        | error e => simp [before, hD, List.head?_cons, hu, hlen, hfx]
        | ok supplied =>
            by_cases hsl : (requestDigestSpec secret method path (bb.getD [])).length =
                supplied.length
            · cases hb : ((List.zipWith Nat.xor (requestDigestSpec secret method path
                  (bb.getD [])) supplied).foldl Nat.lor 0 == 0) with
              | true => simp [before, hD, List.head?_cons, hu, hlen, hfx, memcmpEq, hsl, hb]
              | false => simp [before, hD, List.head?_cons, hu, hlen, hfx, memcmpEq, hsl, hb]
            · simp [before, hD, List.head?_cons, hu, hlen, hfx, hsl]
      · simp [before, hD, List.head?_cons, hu, hlen]

/-- C6 amended witness: totality applied at a concrete UTF-8 header value. -/
theorem before_total_on_utf8_headers_witness :
    (before secretA (some [[48]]) (.ok none) methodA pathA).isSome = true :=
  before_total_on_utf8_headers secretA [48] [] (.ok none) methodA pathA (by decide)

/-- C6 counterexample: a supplied header value that is not valid UTF-8 (the
single byte 0xFF) drives `before` into the `from_utf8(..).unwrap()` panic —
modelled as `none` — instead of producing an outcome. -/
theorem before_invalid_utf8_panics_cex :
    before secretA (some [[255]]) (.ok none) methodA pathA = none := by
  decide

end IronHmac
